import Mathlib

/-!
Verification of the playlist engine of `twitchdl/playlists.py`.

Shallow embedding conventions:
* Python floats (segment durations, crop offsets) are modelled as exact
  rationals; the arithmetic performed by the engine is plain additions,
  subtractions and comparisons.
* Python `Optional` values are `Option`; Python truthiness of an optional
  number (`None` and `0` are falsy) is spelled out at every use site.
* The `for` loops of the source become structural recursions threading the
  loop state; appending to an accumulator list becomes consing the element
  in front of the recursive result, which produces the same list.
* Fallible operations (`click.ClickException`) return `Except`.
-/

namespace TwitchDL

/-- Playlist dataclass of `playlists.py` lines 18-24. -/
structure Playlist where
  name : String
  group_id : String
  resolution : Option String
  url : String
  is_source : Bool
deriving DecidableEq

/-- Vod dataclass of `playlists.py` lines 27-36. -/
structure Vod where
  index : Nat
  path : String
  duration : ℚ
  filename : String
deriving DecidableEq

/-- Condition `start_condition = not start or vod_end > start` of line 94:
`not start` is true when `start` is `None` or `0` (Python falsiness). -/
def startCond (start? : Option ℚ) (vodEnd : ℚ) : Bool :=
  match start? with
  | none => true
  | some s => decide (s = 0) || decide (vodEnd > s)

/-- Condition `end_condition = not end or vod_start < end` of line 95. -/
def endCond (end? : Option ℚ) (vodStart : ℚ) : Bool :=
  match end? with
  | none => true
  | some e => decide (e = 0) || decide (vodStart < e)

/-- The `for vod in vods` loop of `filter_vods` (lines 85-99).  Arguments after
the vod list: the running `vod_start` and the current `crop_start` and
`crop_end` loop variables.  Returns the vods appended to `filtered_vods` from
this iteration on, together with the final values of `crop_start` and
`crop_end`.  The guards `if start and start > vod_start and start < vod_end`
(line 88) and `if end and end > vod_start and end < vod_end` (line 91) test
Python truthiness of the bound (not `None` and not `0`) and strict interiority. -/
def filterVodsAux (start? end? : Option ℚ) :
    List Vod → ℚ → Option ℚ → Option ℚ → List Vod × Option ℚ × Option ℚ
  | [], _, cropStart, cropEnd => ([], cropStart, cropEnd)
  | vod :: rest, vodStart, cropStart, cropEnd =>
    let vodEnd := vodStart + vod.duration
    let cropStart' :=
      match start? with
      | some s => if ¬s = 0 ∧ vodStart < s ∧ s < vodEnd then some (s - vodStart) else cropStart
      | none => cropStart
    let cropEnd' :=
      match end? with
      | some e => if ¬e = 0 ∧ vodStart < e ∧ e < vodEnd then some (vodEnd - e) else cropEnd
      | none => cropEnd
    let res := filterVodsAux start? end? rest vodEnd cropStart' cropEnd'
    if startCond start? vodEnd && endCond end? vodStart then
      (vod :: res.1, res.2)
    else
      res

/-- Function `filter_vods` (lines 71-106): returns
`(filtered_vods, crop_start, crop_duration)`.  After the loop, line 102 tests
`if crop_end:` (falsy for `None` and for `0`) and line 104 computes
`total_duration - (crop_start or 0) - crop_end`, where `crop_start or 0` is
`0` when `crop_start` is `None` or `0`. -/
def filter_vods (vods : List Vod) (start? end? : Option ℚ) :
    List Vod × Option ℚ × Option ℚ :=
  let r := filterVodsAux start? end? vods 0 none none
  let cropDuration :=
    match r.2.2 with
    | some ce =>
      if ce = 0 then none
      else
        some ((r.1.map Vod.duration).sum -
          (match r.2.1 with
           | some cs => if cs = 0 then 0 else cs
           | none => 0) - ce)
    | none => none
  (r.1, r.2.1, cropDuration)

/-- Retention predicate exactly as claim C1 words it (a refinement comparison
definition, written from the claim text, not from the source): a segment is
retained iff (start is unset OR segmentEnd > start) AND (end is unset OR
segmentStart < end). -/
def retainClaim (start? end? : Option ℚ) (segStart segEnd : ℚ) : Bool :=
  (match start? with
   | none => true
   | some s => decide (segEnd > s)) &&
  (match end? with
   | none => true
   | some e => decide (segStart < e))

/-- Filtering a vod list by the claim C1 predicate along the running segment
start times (written from the claim text, for the refinement comparison). -/
def claimFilter (start? end? : Option ℚ) : List Vod → ℚ → List Vod
  | [], _ => []
  | v :: rest, t =>
    if retainClaim start? end? t (t + v.duration) then
      v :: claimFilter start? end? rest (t + v.duration)
    else
      claimFilter start? end? rest (t + v.duration)

/-- Normalisation expressing the zero-falsy quirk: a bound equal to 0 behaves
exactly as an absent bound. -/
def norm0 (b : Option ℚ) : Option ℚ :=
  match b with
  | some v => if v = 0 then none else some v
  | none => none

/-- Running segment start time: sum of the durations of the first `i` vods. -/
def segStart (vods : List Vod) (i : Nat) : ℚ :=
  ((vods.take i).map Vod.duration).sum

/-- The value held by the `crop_end` loop variable contributed by the loop
itself (lines 91-92), ignoring its initial value: the update at the last
segment whose interior strictly contains a truthy `end` wins. -/
def lastCropEnd (end? : Option ℚ) : List Vod → ℚ → Option ℚ
  | [], _ => none
  | v :: rest, t =>
    match lastCropEnd end? rest (t + v.duration) with
    | some c => some c
    | none =>
      match end? with
      | some e =>
        if ¬e = 0 ∧ t < e ∧ e < t + v.duration then some (t + v.duration - e) else none
      | none => none

/-- A segment of the `m3u8.M3U8` document, with the fields `make_join_playlist`
reads and writes: its `uri` (matched against the path map and rewritten) and
the duration payload it carries along unchanged. -/
structure MSegment where
  uri : String
  duration : ℚ
deriving DecidableEq

/-- A `pathlib.Path` download target; `name` is its final component, which is
what `str(path_map[segment.uri].name)` reads at line 124. -/
structure LocalPath where
  name : String
deriving DecidableEq

/-- Association `OrderedDict(zip([v.path for v in vods], targets))` of
line 120: built pairwise, `zip` truncates to the shorter of the two lists. -/
def path_map (vods : List Vod) (targets : List LocalPath) : List (String × LocalPath) :=
  List.zip (vods.map Vod.path) targets

/-- Python dict lookup on the association built by `path_map`: for duplicate
keys the last binding wins, as in a Python dict built from a pair sequence. -/
def dictLookup (m : List (String × LocalPath)) (k : String) : Option LocalPath :=
  match m with
  | [] => none
  | kv :: rest =>
    match dictLookup rest k with
    | some v => some v
    | none => if kv.1 = k then some kv.2 else none

/-- The `for segment in org_segments` loop of lines 122-125: keep exactly the
segments whose `uri` is a key of the map (`if segment.uri in path_map`),
rewriting `uri` to the basename of the mapped target before appending. -/
def joinLoop (m : List (String × LocalPath)) : List MSegment → List MSegment
  | [] => []
  | seg :: rest =>
    match dictLookup m seg.uri with
    | some target => { seg with uri := target.name } :: joinLoop m rest
    | none => joinLoop m rest

/-- Function `make_join_playlist` (lines 109-127).  The source snapshots
`playlist.segments` (line 118), clears the document segment list in place
(line 121), refills it with the retained rewritten segments (lines 122-125)
and returns the very same document object (line 127); the embedding therefore
returns the document segment list as it stands after the call, which is also
the segment list of the returned playlist. -/
def make_join_playlist (playlist : List MSegment) (vods : List Vod)
    (targets : List LocalPath) : List MSegment :=
  let org_segments := playlist
  joinLoop (path_map vods targets) org_segments

/-- Failure kind named by the spec for mismatched synthesis inputs. -/
inductive SynthFailure
  | precisionViolation
deriving DecidableEq

/-- Modelled from the spec (refinement comparison definition for claim C6,
written from the claim text, not from the source): synthesis with mismatched
lengths of retained segments and local paths must fail fatally with a
PrecisionViolation programmer error instead of returning a playlist. -/
def synthesizeSpec (playlist : List MSegment) (vods : List Vod)
    (targets : List LocalPath) : Except SynthFailure (List MSegment) :=
  if vods.length = targets.length then
    Except.ok (make_join_playlist playlist vods targets)
  else
    Except.error SynthFailure.precisionViolation

/-- Sentinel `MAX = 1_000_000` of line 180. -/
def MAX : Int := 1000000

/-- Expression `name.split("p")[0]` of line 193: the characters before the
first letter p, or the whole string when there is none. -/
def beforeP (s : String) : List Char :=
  s.toList.takeWhile (fun c => ¬c = 'p')

/-- Value of a nonempty all-digit character list, `none` otherwise. -/
def digitsVal (cs : List Char) : Option Nat :=
  if cs = [] then none
  else if cs.all Char.isDigit then
    some (cs.foldl (fun acc c => 10 * acc + (c.toNat - 48)) 0)
  else none

/-- Python `int(...)` applied to the prefix string, modelled as a partial
parse: optional surrounding whitespace, an optional sign, then decimal
digits; anything else raises, which the embedding models as `none`.
(CPython in addition accepts underscores between digits and non-ASCII
digits; rendition names never contain those and they are not modelled.) -/
def pyInt (cs : List Char) : Option Int :=
  let t := ((cs.dropWhile Char.isWhitespace).reverse.dropWhile Char.isWhitespace).reverse
  match t with
  | '+' :: rest => (digitsVal rest).map (fun n => (n : Int))
  | '-' :: rest => (digitsVal rest).map (fun n => -(n : Int))
  | l => (digitsVal l).map (fun n => (n : Int))

/-- Function `_playlist_key` (lines 183-197): source quality first, audio-only
last, otherwise descending by the resolution number parsed from the name, with
the sentinel on any parse failure (`except Exception: pass`). -/
def playlist_key (p : Playlist) : Int :=
  if p.is_source then 0
  else if p.group_id = "audio_only" then MAX
  else
    match pyInt (beforeP p.name) with
    | some v => MAX - v
    | none => MAX

/-- Error raised by `select_playlist_by_name`, modelled structurally:
`sourceNotFound` stands for the fixed message of line 143 and
`qualityNotFound q a` for the message of line 150 naming the requested
quality `q` and the comma-joined available names `a` (line 149). -/
inductive QualityError
  | sourceNotFound
  | qualityNotFound (requested : String) (available : String)
deriving DecidableEq

/-- Function `select_playlist_by_name` (lines 138-151): for quality
`"source"`, the first playlist with `is_source`; otherwise the first playlist
whose `name` or `group_id` equals the requested quality; the `for ... return`
loops are first-match searches. -/
def select_playlist_by_name (playlists : List Playlist) (quality : String) :
    Except QualityError Playlist :=
  if quality = "source" then
    match playlists.find? (fun p => p.is_source) with
    | some p => Except.ok p
    | none => Except.error QualityError.sourceNotFound
  else
    match playlists.find? (fun p => p.name == quality || p.group_id == quality) with
    | some p => Except.ok p
    | none =>
      Except.error (QualityError.qualityNotFound quality
        (String.intercalate ", " (playlists.map Playlist.name)))

/-- The bounds `select_playlist_interactive` passes to `read_int` at line 175:
`min=1, max=len(playlists) + 1`. -/
def interactiveBounds (playlists : List Playlist) : Nat × Nat :=
  (1, playlists.length + 1)

/-- Modelled from the spec: `read_int` lives in `twitchdl/utils.py`, which is
not among the sources; per the claim it accepts exactly the integers between
its min and max arguments inclusive. -/
def readIntAccepts (bounds : Nat × Nat) (n : Nat) : Prop :=
  bounds.1 ≤ n ∧ n ≤ bounds.2

/-- The list index `no - 1` computed from the accepted choice at line 176. -/
def choiceIndex (no : Nat) : Nat :=
  no - 1

/-- Sample vod of ten seconds with playlist index `i`. -/
def tenSec (i : Nat) : Vod :=
  ⟨i, s!"v{i}.ts", 10, s!"0000{i}.ts"⟩

/-- Five ten-second vods at indices 0..4, spanning 0-50 seconds. -/
def tenSecVods : List Vod :=
  [tenSec 0, tenSec 1, tenSec 2, tenSec 3, tenSec 4]

/-- Sample document with two segments, matching the paths of the sample vods. -/
def segDoc : List MSegment :=
  [⟨"v0.ts", 10⟩, ⟨"v1.ts", 10⟩]

/-- Sample non-source 1080p rendition. -/
def pl1080 : Playlist :=
  ⟨"1080p60", "1080p60", some "1920x1080", "https://example.com/1080.m3u8", false⟩

/-- Sample non-source 720p rendition. -/
def pl720 : Playlist :=
  ⟨"720p60", "720p60", some "1280x720", "https://example.com/720.m3u8", false⟩

/-- Sample audio-only rendition. -/
def plAudio : Playlist :=
  ⟨"audio_only", "audio_only", none, "https://example.com/audio.m3u8", false⟩

/-- Rendition list of the quality-not-found example of claim C9. -/
def plList : List Playlist :=
  [pl1080, pl720, plAudio]

/-! ## Helper lemmas about the filter loop -/

theorem keep_eq_retainClaim (s? e? : Option ℚ) (t v : ℚ) :
    (startCond s? v && endCond e? t) = retainClaim (norm0 s?) (norm0 e?) t v := by
  cases s? with
  | none =>
    cases e? with
    | none => rfl
    | some e => by_cases he : e = 0 <;> simp [startCond, endCond, retainClaim, norm0, he]
  | some s =>
    cases e? with
    | none => by_cases hs : s = 0 <;> simp [startCond, endCond, retainClaim, norm0, hs]
    | some e =>
      by_cases hs : s = 0 <;> by_cases he : e = 0 <;>
        simp [startCond, endCond, retainClaim, norm0, hs, he]

theorem filterVodsAux_fst (s? e? : Option ℚ) (vods : List Vod) :
    ∀ (t : ℚ) (cs ce : Option ℚ),
      (filterVodsAux s? e? vods t cs ce).1 = claimFilter (norm0 s?) (norm0 e?) vods t := by
  induction vods with
  | nil => intro t cs ce; rfl
  | cons vod rest ih =>
    intro t cs ce
    simp only [filterVodsAux, claimFilter]
    rw [← keep_eq_retainClaim s? e? t (t + vod.duration)]
    split
    · simp [ih]
    · simp [ih]

theorem claimFilter_sublist (s? e? : Option ℚ) (vods : List Vod) :
    ∀ t : ℚ, (claimFilter s? e? vods t).Sublist vods := by
  induction vods with
  | nil => intro t; simp [claimFilter]
  | cons v rest ih =>
    intro t
    simp only [claimFilter]
    split
    · exact List.Sublist.cons₂ v (ih _)
    · exact List.Sublist.cons v (ih _)

theorem filterVodsAux_start_zero (e? : Option ℚ) (vods : List Vod) :
    ∀ (t : ℚ) (cs ce : Option ℚ),
      filterVodsAux (some 0) e? vods t cs ce = filterVodsAux none e? vods t cs ce := by
  induction vods with
  | nil => intro t cs ce; rfl
  | cons vod rest ih =>
    intro t cs ce
    simp only [filterVodsAux, startCond]
    simp only [decide_eq_true_eq, not_true_eq_false, false_and, if_false, Bool.true_or, ih]
    simp

theorem filterVodsAux_end_zero (s? : Option ℚ) (vods : List Vod) :
    ∀ (t : ℚ) (cs ce : Option ℚ),
      filterVodsAux s? (some 0) vods t cs ce = filterVodsAux s? none vods t cs ce := by
  induction vods with
  | nil => intro t cs ce; rfl
  | cons vod rest ih =>
    intro t cs ce
    simp only [filterVodsAux, endCond]
    simp only [decide_eq_true_eq, not_true_eq_false, false_and, if_false, Bool.true_or, ih]
    simp

theorem segStart_zero (vods : List Vod) : segStart vods 0 = 0 := by
  simp [segStart]

theorem segStart_cons (v : Vod) (rest : List Vod) (i : Nat) :
    segStart (v :: rest) (i + 1) = v.duration + segStart rest i := by
  simp [segStart, List.take_succ_cons]

theorem segStart_nonneg (vods : List Vod) (hd : ∀ v ∈ vods, 0 ≤ v.duration) (i : Nat) :
    0 ≤ segStart vods i := by
  apply List.sum_nonneg
  intro x hx
  rcases List.mem_map.mp hx with ⟨v, hv, rfl⟩
  exact hd v (List.mem_of_mem_take hv)

theorem filterVodsAux_cropEnd (s? e? : Option ℚ) (vods : List Vod) :
    ∀ (t : ℚ) (cs ce : Option ℚ),
      (filterVodsAux s? e? vods t cs ce).2.2 =
        match lastCropEnd e? vods t with
        | some c => some c
        | none => ce := by
  induction vods with
  | nil => intro t cs ce; rfl
  | cons vod rest ih =>
    intro t cs ce
    simp only [filterVodsAux, lastCropEnd]
    have hsnd : ∀ (r : List Vod × Option ℚ × Option ℚ) (b : Bool) (v : Vod),
        (if b = true then (v :: r.1, r.2) else r).2.2 = r.2.2 := by
      intro r b v; cases b <;> rfl
    rw [hsnd]
    rw [ih]
    cases h : lastCropEnd e? rest (t + vod.duration) with
    | some c => simp
    | none =>
      cases e? with
      | none => simp
      | some e =>
        by_cases hc : ¬e = 0 ∧ t < e ∧ e < t + vod.duration
        · simp [hc]
        · simp [hc]

theorem lastCropEnd_pos (e? : Option ℚ) (vods : List Vod) :
    ∀ (t c : ℚ), lastCropEnd e? vods t = some c → 0 < c := by
  induction vods with
  | nil => intro t c h; simp [lastCropEnd] at h
  | cons vod rest ih =>
    intro t c h
    simp only [lastCropEnd] at h
    cases hr : lastCropEnd e? rest (t + vod.duration) with
    | some c' =>
      rw [hr] at h
      exact ih _ _ (hr.trans (by simpa using h))
    | none =>
      rw [hr] at h
      cases e? with
      | none => simp at h
      | some e =>
        by_cases hc : ¬e = 0 ∧ t < e ∧ e < t + vod.duration
        · have h3 := hc.2.2
          simp only [hc, if_true] at h
          obtain rfl : t + vod.duration - e = c := by simpa using h
          linarith
        · simp only [hc, if_false] at h
          simp at h

theorem filterVodsAux_cropStart_pos (s? e? : Option ℚ) (vods : List Vod) :
    ∀ (t : ℚ) (cs ce : Option ℚ), (∀ c, cs = some c → 0 < c) →
      ∀ c, (filterVodsAux s? e? vods t cs ce).2.1 = some c → 0 < c := by
  induction vods with
  | nil =>
    intro t cs ce hcs c h
    exact hcs c h
  | cons vod rest ih =>
    intro t cs ce hcs c h
    simp only [filterVodsAux] at h
    have hsnd : ∀ (r : List Vod × Option ℚ × Option ℚ) (b : Bool) (v : Vod),
        (if b = true then (v :: r.1, r.2) else r).2.1 = r.2.1 := by
      intro r b v; cases b <;> rfl
    rw [hsnd] at h
    refine ih (t + vod.duration) _ _ ?_ c h
    cases s? with
    | none => exact hcs
    | some s =>
      by_cases hc : ¬s = 0 ∧ t < s ∧ s < t + vod.duration
      · intro c' hc'
        have h2 := hc.2.1
        simp only [hc, if_true] at hc'
        obtain rfl : s - t = c' := by simpa using hc'
        linarith
      · intro c' hc'
        simp only [hc, if_false] at hc'
        exact hcs c' hc'

theorem lastCropEnd_isSome_iff (e? : Option ℚ) (vods : List Vod) :
    ∀ t : ℚ, (lastCropEnd e? vods t).isSome = true ↔
      ∃ e, e? = some e ∧ ¬e = 0 ∧ ∃ i, i < vods.length ∧
        t + segStart vods i < e ∧ e < t + segStart vods (i + 1) := by
  induction vods with
  | nil =>
    intro t
    simp [lastCropEnd]
  | cons vod rest ih =>
    intro t
    constructor
    · intro h
      simp only [lastCropEnd] at h
      cases hr : lastCropEnd e? rest (t + vod.duration) with
      | some c =>
        have := (ih (t + vod.duration)).mp (by simp [hr])
        obtain ⟨e, he, hne, i, hi, h1, h2⟩ := this
        refine ⟨e, he, hne, i + 1, by simpa using hi, ?_, ?_⟩
        · rw [segStart_cons]; linarith
        · rw [segStart_cons]; linarith
      | none =>
        rw [hr] at h
        cases e? with
        | none => simp at h
        | some e =>
          by_cases hc : ¬e = 0 ∧ t < e ∧ e < t + vod.duration
          · exact ⟨e, rfl, hc.1, 0, by simp, by simpa [segStart_zero] using hc.2.1,
              by simpa [segStart_cons, segStart_zero] using hc.2.2⟩
          · simp only [hc, if_false] at h
            simp at h
    · rintro ⟨e, rfl, hne, i, hi, h1, h2⟩
      simp only [lastCropEnd]
      cases hr : lastCropEnd (some e) rest (t + vod.duration) with
      | some c => simp
      | none =>
        cases i with
        | zero =>
          rw [segStart_zero] at h1
          rw [segStart_cons, segStart_zero] at h2
          have hc : ¬e = 0 ∧ t < e ∧ e < t + vod.duration :=
            ⟨hne, by linarith, by linarith⟩
          simp [hc]
        | succ j =>
          exfalso
          have : (lastCropEnd (some e) rest (t + vod.duration)).isSome = true := by
            refine (ih (t + vod.duration)).mpr ⟨e, rfl, hne, j, by simpa using hi, ?_, ?_⟩
            · rw [segStart_cons] at h1; linarith
            · rw [segStart_cons] at h2; linarith
          rw [hr] at this
          simp at this

theorem lastCropEnd_eq_of_interior (e : ℚ) (vods : List Vod)
    (hd : ∀ v ∈ vods, 0 ≤ v.duration) :
    ∀ (t : ℚ) (i : Nat), i < vods.length → ¬e = 0 →
      t + segStart vods i < e → e < t + segStart vods (i + 1) →
      lastCropEnd (some e) vods t = some (t + segStart vods (i + 1) - e) := by
  induction vods with
  | nil => intro t i hi; simp at hi
  | cons vod rest ih =>
    intro t i hi hne h1 h2
    have hdrest : ∀ v ∈ rest, 0 ≤ v.duration := fun v hv => hd v (List.mem_cons_of_mem _ hv)
    cases i with
    | zero =>
      rw [segStart_zero, add_zero] at h1
      rw [segStart_cons, segStart_zero, add_zero] at h2
      have hnone : lastCropEnd (some e) rest (t + vod.duration) = none := by
        cases hr : lastCropEnd (some e) rest (t + vod.duration) with
        | none => rfl
        | some c =>
          exfalso
          have := (lastCropEnd_isSome_iff (some e) rest (t + vod.duration)).mp (by simp [hr])
          obtain ⟨e', he', -, j, hj, hj1, -⟩ := this
          obtain rfl : e' = e := by simpa using he'.symm
          have := segStart_nonneg rest hdrest j
          linarith
      have hc : ¬e = 0 ∧ t < e ∧ e < t + vod.duration := ⟨hne, by linarith, h2⟩
      simp only [lastCropEnd, hnone]
      rw [if_pos hc, segStart_cons, segStart_zero]
      congr 1
      ring
    | succ j =>
      have hj : j < rest.length := by simpa using hi
      rw [segStart_cons] at h1
      rw [segStart_cons] at h2
      have hrec := ih hdrest (t + vod.duration) j hj hne (by linarith) (by linarith)
      simp only [lastCropEnd, hrec]
      rw [segStart_cons]
      congr 1
      ring

/-! ## Helper lemmas about the join playlist loop -/

theorem joinLoop_eq_filter_map (m : List (String × LocalPath)) (doc : List MSegment) :
    joinLoop m doc =
      (doc.filter (fun s => (dictLookup m s.uri).isSome)).map
        (fun s => { s with uri := ((dictLookup m s.uri).getD ⟨""⟩).name }) := by
  induction doc with
  | nil => rfl
  | cons seg rest ih =>
    cases h : dictLookup m seg.uri with
    | some target => simp [joinLoop, h, List.filter_cons, ih]
    | none => simp [joinLoop, h, List.filter_cons, ih]

theorem dictLookup_isSome_iff (m : List (String × LocalPath)) (k : String) :
    (dictLookup m k).isSome = true ↔ k ∈ m.map Prod.fst := by
  induction m with
  | nil => simp [dictLookup]
  | cons kv rest ih =>
    simp only [dictLookup, List.map_cons, List.mem_cons]
    cases h : dictLookup rest k with
    | some v =>
      simp only [Option.isSome_some, true_iff]
      right
      exact ih.mp (by simp [h])
    | none =>
      rw [h] at ih
      simp only [Option.isSome_none, Bool.false_eq_true, false_iff] at ih
      by_cases hk : kv.1 = k
      · simp [hk]
      · simp only [hk, if_false, Option.isSome_none, Bool.false_eq_true, false_iff]
        push_neg
        exact ⟨fun hkk => hk hkk.symm, ih⟩

theorem zip_take_min {α β : Type} :
    ∀ (l1 : List α) (l2 : List β),
      List.zip (l1.take (min l1.length l2.length)) (l2.take (min l1.length l2.length)) =
        List.zip l1 l2 := by
  intro l1
  induction l1 with
  | nil => intro l2; simp
  | cons a r1 ih =>
    intro l2
    cases l2 with
    | nil => simp
    | cons b r2 =>
      simp only [List.length_cons, Nat.succ_min_succ, List.take_succ_cons, List.zip_cons_cons,
        List.cons.injEq, true_and]
      exact ih r2

theorem filter_mem_length :
    ∀ {l s : List String}, s.Sublist l → l.Nodup →
      (l.filter (fun x => decide (x ∈ s))).length = s.length := by
  intro l s hs
  induction hs with
  | slnil => intro _; rfl
  | cons a hsub ih =>
    intro hn
    obtain ⟨ha, hn'⟩ := List.nodup_cons.mp hn
    have has : a ∉ _ := fun hmem => ha (hsub.subset hmem)
    rw [List.filter_cons, if_neg (by simpa using has)]
    exact ih hn'
  | cons₂ a hsub ih =>
    rename_i s' l'
    intro hn
    obtain ⟨ha, hn'⟩ := List.nodup_cons.mp hn
    rw [List.filter_cons, if_pos (by simp)]
    have hcongr : ∀ x ∈ l', (fun x => decide (x ∈ a :: s')) x = (fun x => decide (x ∈ s')) x := by
      intro x hx
      have hxa : ¬x = a := fun hxa => ha (hxa ▸ hx)
      simp [List.mem_cons, hxa]
    rw [List.filter_congr hcongr]
    simp only [List.length_cons]
    rw [ih hn']

/-! ## Claim theorems -/

/-- Claim C1, counterexample: with a single ten-second segment and an end
bound of 0 the code retains the segment (0 is falsy at line 95, so the end
condition passes), while the predicate of claim C1, read with the end bound
set, demands segmentStart < 0 and so retains nothing; the two filtered lists
differ. -/
theorem filter_vods_c1_counterexample :
    (filter_vods [tenSec 0] none (some 0)).1 = [tenSec 0] ∧
    claimFilter none (some 0) [tenSec 0] 0 = [] ∧
    (filter_vods [tenSec 0] none (some 0)).1 ≠ claimFilter none (some 0) [tenSec 0] 0 := by
  with_unfolding_all decide

/-- Claim C1 as amended: filter_vods retains exactly the segments satisfying
the claim predicate, (start unset OR segmentEnd > start) AND (end unset OR
segmentStart < end) over running segment start times beginning at 0, once a
start or end bound equal to 0 is treated as unset (the falsy-zero quirk of
claim C4); the retained segments form an order-preserving subsequence of the
input, with no reordering. -/
theorem filter_vods_c1_amended (vods : List Vod) (s? e? : Option ℚ) :
    (filter_vods vods s? e?).1 = claimFilter (norm0 s?) (norm0 e?) vods 0 ∧
    (filter_vods vods s? e?).1.Sublist vods := by
  have h : (filter_vods vods s? e?).1 = claimFilter (norm0 s?) (norm0 e?) vods 0 :=
    filterVodsAux_fst s? e? vods 0 none none
  exact ⟨h, h ▸ claimFilter_sublist (norm0 s?) (norm0 e?) vods 0⟩

/-- Claim C2: for five ten-second segments at indices 0..4, filter_vods with
start 15 and end 35 returns exactly the segments at indices 1, 2 and 3, with
crop_start 5 and crop_duration 20. -/
theorem filter_vods_c2_example :
    filter_vods tenSecVods (some 15) (some 35) =
      ([tenSec 1, tenSec 2, tenSec 3], some 5, some 20) := by
  with_unfolding_all decide

/-- Claim C3: for segments with non-negative durations, filter_vods returns a
set crop_duration if and only if the end bound falls strictly inside some
segment's span (segmentStart < end < segmentEnd, where segmentEnd is the next
running start), and in that case crop_duration equals the total duration of
the retained segments minus the returned crop_start (or 0 if unset) minus
crop_end, where crop_end = segmentEnd - end at the segment containing end. -/
theorem filter_vods_c3_crop_duration (vods : List Vod) (s? e? : Option ℚ)
    (hd : ∀ v ∈ vods, 0 ≤ v.duration) :
    ((filter_vods vods s? e?).2.2.isSome = true ↔
      ∃ e i, e? = some e ∧ i < vods.length ∧
        segStart vods i < e ∧ e < segStart vods (i + 1)) ∧
    ∀ e i, e? = some e → i < vods.length →
      segStart vods i < e → e < segStart vods (i + 1) →
      (filter_vods vods s? e?).2.2 =
        some (((filter_vods vods s? e?).1.map Vod.duration).sum -
          ((filter_vods vods s? e?).2.1).getD 0 - (segStart vods (i + 1) - e)) := by
  have hce : (filterVodsAux s? e? vods 0 none none).2.2 =
      match lastCropEnd e? vods 0 with
      | some c => some c
      | none => none :=
    filterVodsAux_cropEnd s? e? vods 0 none none
  constructor
  · cases hl : lastCropEnd e? vods 0 with
    | none =>
      constructor
      · intro hs
        exfalso
        simp only [filter_vods, hce, hl] at hs
        simp at hs
      · rintro ⟨e, i, rfl, hi, h1, h2⟩
        have hne : ¬e = 0 := by
          have := segStart_nonneg vods hd i
          intro h0; rw [h0] at h1; linarith
        have hsome : (lastCropEnd (some e) vods 0).isSome = true :=
          (lastCropEnd_isSome_iff (some e) vods 0).mpr
            ⟨e, rfl, hne, i, hi, by simpa using h1, by simpa using h2⟩
        rw [hl] at hsome
        simp at hsome
    | some ce =>
      have hpos : 0 < ce := lastCropEnd_pos e? vods 0 ce hl
      constructor
      · intro _
        obtain ⟨e, he, -, i, hi, h1, h2⟩ :=
          (lastCropEnd_isSome_iff e? vods 0).mp (by simp [hl])
        exact ⟨e, i, he, hi, by simpa using h1, by simpa using h2⟩
      · intro _
        simp only [filter_vods, hce, hl]
        simp [ne_of_gt hpos]
  · intro e i he hi h1 h2
    subst he
    have hne : ¬e = 0 := by
      have := segStart_nonneg vods hd i
      intro h0; rw [h0] at h1; linarith
    have hl : lastCropEnd (some e) vods 0 = some (0 + segStart vods (i + 1) - e) :=
      lastCropEnd_eq_of_interior e vods hd 0 i hi hne (by simpa using h1) (by simpa using h2)
    rw [zero_add] at hl
    have hpos : 0 < segStart vods (i + 1) - e := by linarith
    simp only [filter_vods, hce, hl]
    rw [if_neg (by intro h0; rw [h0] at hpos; exact lt_irrefl 0 hpos)]
    congr 1
    congr 1
    cases hcs : (filterVodsAux s? (some e) vods 0 none none).2.1 with
    | none => simp [hcs]
    | some c =>
      have hc : 0 < c :=
        filterVodsAux_cropStart_pos s? (some e) vods 0 none none (by intro c h; cases h) c hcs
      simp [hcs, ne_of_gt hc]

/-- Claim C3, witness: at the concrete five-segment example with end 35 the
crop_duration computed by the theorem evaluates to 20. -/
theorem filter_vods_c3_witness :
    (filter_vods tenSecVods (some 15) (some 35)).2.2 = some 20 := by
  have h := (filter_vods_c3_crop_duration tenSecVods (some 15) (some 35)
    (by with_unfolding_all decide)).2 35 3 rfl (by with_unfolding_all decide)
    (by with_unfolding_all decide) (by with_unfolding_all decide)
  rw [h]
  with_unfolding_all decide

/-- Claim C4: a start bound of 0 gives the same result triple as no start
bound, and an end bound of 0 gives the same result triple as no end bound,
whatever the other bound is. -/
theorem filter_vods_c4_zero_bounds (vods : List Vod) (s? e? : Option ℚ) :
    filter_vods vods (some 0) e? = filter_vods vods none e? ∧
    filter_vods vods s? (some 0) = filter_vods vods s? none := by
  constructor
  · simp only [filter_vods, filterVodsAux_start_zero e? vods 0 none none]
  · simp only [filter_vods, filterVodsAux_end_zero s? vods 0 none none]

/-- Claim C5, counterexample: with a two-segment document and one retained
vod, the document segment list after the call differs from the original (the
call cleared and refilled it in place) and the retained segment's URI was
rewritten, so the original document is not left unchanged. -/
theorem make_join_playlist_c5_counterexample :
    make_join_playlist segDoc [tenSec 0] [⟨"00000.ts"⟩] = [⟨"00000.ts", 10⟩] ∧
    make_join_playlist segDoc [tenSec 0] [⟨"00000.ts"⟩] ≠ segDoc := by
  with_unfolding_all decide

/-- Claim C5 as amended: make_join_playlist mutates the document in place:
after the call the document segment list is exactly the retained segments of
the original with URIs rewritten to the target basenames, and the returned
playlist is that very same (mutated) document, not a fresh unaliased copy. -/
theorem make_join_playlist_c5_amended (doc : List MSegment) (vods : List Vod)
    (targets : List LocalPath) :
    make_join_playlist doc vods targets =
      (doc.filter (fun s => (dictLookup (path_map vods targets) s.uri).isSome)).map
        (fun s => { s with uri := ((dictLookup (path_map vods targets) s.uri).getD ⟨""⟩).name }) :=
  joinLoop_eq_filter_map (path_map vods targets) doc

/-- Claim C6, counterexample: with two retained vods and one local path the
spec-modelled synthesizer fails with the PrecisionViolation programmer error,
while the code raises nothing and returns a playlist built from the
zip-truncated association. -/
theorem make_join_playlist_c6_counterexample :
    synthesizeSpec segDoc [tenSec 0, tenSec 1] [⟨"00000.ts"⟩] =
      Except.error SynthFailure.precisionViolation ∧
    make_join_playlist segDoc [tenSec 0, tenSec 1] [⟨"00000.ts"⟩] = [⟨"00000.ts", 10⟩] := by
  constructor
  · with_unfolding_all rfl
  · with_unfolding_all decide

/-- Claim C6 as amended: mismatched lengths of retained vods and local paths
do not fail; zip truncates the association to the shorter list, so the call
returns exactly what it returns when both lists are cut to the common
length. -/
theorem make_join_playlist_c6_amended (doc : List MSegment) (vods : List Vod)
    (targets : List LocalPath) :
    make_join_playlist doc vods targets =
      make_join_playlist doc (vods.take (min vods.length targets.length))
        (targets.take (min vods.length targets.length)) := by
  have hmap : path_map (vods.take (min vods.length targets.length))
      (targets.take (min vods.length targets.length)) = path_map vods targets := by
    simp only [path_map, List.map_take]
    have := zip_take_min (vods.map Vod.path) targets
    simpa using this
  simp only [make_join_playlist, hmap]

/-- Claim C7: when the retained vods' paths form a subsequence of the
document's segment URIs, the document URIs are distinct and paths and targets
correspond positionally, the segment sequence returned by make_join_playlist
is the URI-rewriting image of an order-preserving subsequence of the original
document, and its length equals the number of retained vods. -/
theorem make_join_playlist_c7_subsequence (doc : List MSegment) (vods : List Vod)
    (targets : List LocalPath)
    (hlen : vods.length = targets.length)
    (hsub : (vods.map Vod.path).Sublist (doc.map MSegment.uri))
    (hnd : (doc.map MSegment.uri).Nodup) :
    ∃ sub : List MSegment, sub.Sublist doc ∧
      make_join_playlist doc vods targets =
        sub.map (fun s =>
          { s with uri := ((dictLookup (path_map vods targets) s.uri).getD ⟨""⟩).name }) ∧
      (make_join_playlist doc vods targets).length = vods.length := by
  have hkeys : (path_map vods targets).map Prod.fst = vods.map Vod.path :=
    List.map_fst_zip _ _ (by rw [List.length_map, hlen])
  have hpred : ∀ s : MSegment, (dictLookup (path_map vods targets) s.uri).isSome
      = decide (s.uri ∈ vods.map Vod.path) := by
    intro s
    have h := dictLookup_isSome_iff (path_map vods targets) s.uri
    rw [hkeys] at h
    rw [Bool.eq_iff_iff, h]
    simp
  have hchar : make_join_playlist doc vods targets =
      (doc.filter (fun s => (dictLookup (path_map vods targets) s.uri).isSome)).map
        (fun s =>
          { s with uri := ((dictLookup (path_map vods targets) s.uri).getD ⟨""⟩).name }) :=
    joinLoop_eq_filter_map (path_map vods targets) doc
  refine ⟨doc.filter (fun s => (dictLookup (path_map vods targets) s.uri).isSome),
    List.filter_sublist _, hchar, ?_⟩
  rw [hchar, List.length_map]
  rw [List.filter_congr (fun s _ => hpred s)]
  rw [← List.countP_eq_length_filter]
  have hcm := List.countP_map (fun x => decide (x ∈ vods.map Vod.path)) MSegment.uri doc
  simp only [Function.comp_def] at hcm
  rw [← hcm]
  rw [List.countP_eq_length_filter]
  rw [filter_mem_length hsub hnd]
  exact List.length_map _ _

/-- Claim C7, witness: the subsequence law instantiated at the two-segment
document with one retained vod. -/
theorem make_join_playlist_c7_witness :
    ∃ sub : List MSegment, sub.Sublist segDoc ∧
      make_join_playlist segDoc [tenSec 0] [⟨"00000.ts"⟩] =
        sub.map (fun s =>
          { s with
            uri := ((dictLookup (path_map [tenSec 0] [⟨"00000.ts"⟩]) s.uri).getD ⟨""⟩).name }) ∧
      (make_join_playlist segDoc [tenSec 0] [⟨"00000.ts"⟩]).length =
        ([tenSec 0] : List Vod).length :=
  make_join_playlist_c7_subsequence segDoc [tenSec 0] [⟨"00000.ts"⟩] rfl
    (by with_unfolding_all decide) (by with_unfolding_all decide)

/-- Claim C8: playlist_key returns 0 for a source rendition; the sentinel MAX
when the group id is audio_only; MAX minus the integer parsed from the name
before the first letter p when that parse succeeds; and MAX when the parse
fails. -/
theorem playlist_key_c8 (p : Playlist) :
    (p.is_source = true → playlist_key p = 0)
  ∧ (p.is_source = false → p.group_id = "audio_only" → playlist_key p = MAX)
  ∧ (∀ v, p.is_source = false → ¬p.group_id = "audio_only" →
      pyInt (beforeP p.name) = some v → playlist_key p = MAX - v)
  ∧ (p.is_source = false → ¬p.group_id = "audio_only" →
      pyInt (beforeP p.name) = none → playlist_key p = MAX) := by
  refine ⟨?_, ?_, ?_, ?_⟩
  · intro h; simp [playlist_key, h]
  · intro h1 h2; simp [playlist_key, h1, h2]
  · intro v h1 h2 h3; simp [playlist_key, h1, h2, h3]
  · intro h1 h2 h3; simp [playlist_key, h1, h2, h3]

/-- Claim C8, witness: the 720p60 rendition parses to 720 and gets key
MAX - 720. -/
theorem playlist_key_c8_witness :
    pl720.is_source = false ∧ ¬pl720.group_id = "audio_only" ∧
    pyInt (beforeP pl720.name) = some 720 ∧ playlist_key pl720 = MAX - 720 :=
  ⟨rfl, by decide, by decide,
    (playlist_key_c8 pl720).2.2.1 720 rfl (by decide) (by decide)⟩

/-- Claim C9: for quality "source", select_playlist_by_name returns the first
rendition marked as source, and fails with the fixed source-not-found error
when no rendition is source; for any other quality it returns the first
rendition whose name or group id equals it, and when none matches it fails
with the error carrying the requested quality and the comma-joined list of
all available rendition names. -/
theorem select_playlist_by_name_c9 (ps : List Playlist) (q : String) :
    (q = "source" → ∀ p, ps.find? (fun p => p.is_source) = some p →
      select_playlist_by_name ps q = Except.ok p)
  ∧ (q = "source" → (∀ p ∈ ps, p.is_source = false) →
      select_playlist_by_name ps q = Except.error QualityError.sourceNotFound)
  ∧ (¬q = "source" → ∀ p, ps.find? (fun p => p.name == q || p.group_id == q) = some p →
      select_playlist_by_name ps q = Except.ok p)
  ∧ (¬q = "source" → (∀ p ∈ ps, ¬p.name = q ∧ ¬p.group_id = q) →
      select_playlist_by_name ps q =
        Except.error (QualityError.qualityNotFound q
          (String.intercalate ", " (ps.map Playlist.name)))) := by
  refine ⟨?_, ?_, ?_, ?_⟩
  · intro hq p hf; subst hq; simp [select_playlist_by_name, hf]
  · intro hq hall; subst hq
    have hf : ps.find? (fun p => p.is_source) = none := by
      rw [List.find?_eq_none]; intro p hp; simp [hall p hp]
    simp [select_playlist_by_name, hf]
  · intro hq p hf; simp [select_playlist_by_name, hq, hf]
  · intro hq hall
    have hf : ps.find? (fun p => p.name == q || p.group_id == q) = none := by
      rw [List.find?_eq_none]; intro p hp
      obtain ⟨h1, h2⟩ := hall p hp
      simp [h1, h2]
    simp [select_playlist_by_name, hq, hf]

/-- Claim C9, witness: requesting quality 4k against the renditions named
1080p60, 720p60 and audio_only fails with the available list joined exactly
as stated by the claim. -/
theorem select_playlist_by_name_c9_witness :
    select_playlist_by_name plList "4k" =
      Except.error (QualityError.qualityNotFound "4k" "1080p60, 720p60, audio_only") := by
  have h := (select_playlist_by_name_c9 plList "4k").2.2.2 (by decide) (by decide)
  rw [h]
  rfl

/-- Claim C10, code bug evidence: for a one-rendition list the declared
read_int bounds (min 1, max length + 1) accept the choice 2, yet the index
2 - 1 computed at line 176 is not within range of the list, so the lookup
playlists[no - 1] falls outside the list. -/
theorem interactive_choice_c10_out_of_range :
    readIntAccepts (interactiveBounds [pl720]) 2 ∧
    ¬choiceIndex 2 < ([pl720] : List Playlist).length := by
  constructor
  · exact ⟨by decide, by decide⟩
  · decide

end TwitchDL
